import Mathlib

/-!
Verification development for the Synq real-time messaging backend.

The JavaScript source is shallowly embedded: the Mongo collections become
lists inside a `DB` record, JavaScript strings are modelled as lists of
characters (`Str`), `Date` values as natural-number timestamps, object ids
as natural numbers, and every fallible operation returns `Except` or an
`ApiResult`.  Each definition mirrors one function of the source
(`messageModel.js`, `roomMemberModel.js`, `roomController.js`,
`room.js` utilities, `chatHandlers.js`).
-/

namespace Synq

/-- JavaScript strings are modelled as lists of characters. -/
abbrev Str := List Char

/-- Coerce a Lean string literal into the character-list model. -/
def str (s : String) : Str := s.data

/-- Embeds JavaScript String.prototype.toLowerCase (ASCII letters suffice
for the usernames handled by the repository). -/
def jsToLower (s : Str) : Str := s.map Char.toLower

/-- Embeds JavaScript String.prototype.trim: strip leading and trailing
whitespace. -/
def trimChars (s : Str) : Str :=
  ((s.dropWhile Char.isWhitespace).reverse.dropWhile Char.isWhitespace).reverse

/-- Code-unit lexicographic order on strings, as used by the default
JavaScript Array.prototype.sort comparison. -/
def lexLe : Str → Str → Bool
  | [], _ => true
  | _ :: _, [] => false
  | a :: as, b :: bs =>
    if a.toNat < b.toNat then true
    else if b.toNat < a.toNat then false
    else lexLe as bs

/-- Message delivery status (messageSchema.status enum). -/
inductive Status where
  | Sent
  | Delivered
  | Read
deriving DecidableEq

/-- Membership role (roomMemberSchema.role enum). -/
inductive Role where
  | admin
  | member
deriving DecidableEq

/-- Room type (roomSchema.type enum). -/
inductive RoomType where
  | dm
  | group
deriving DecidableEq

/-- A document of the users collection (userModel.js). -/
structure User where
  uid : Nat
  username : Str
deriving DecidableEq

/-- A document of the rooms collection (roomModel.js). -/
structure Room where
  rid : Nat
  roomId : Str
  rtype : RoomType
  name : Option Str
  lastMessage : Str
  lastMessageAt : Nat
  createdBy : Option Nat
deriving DecidableEq

/-- A document of the roommembers collection (roomMemberModel.js). -/
structure Membership where
  roomRef : Nat
  userId : Nat
  role : Role
  unreadCount : Nat
  lastReadAt : Nat
  joinedAt : Nat
  leftAt : Option Nat
deriving DecidableEq

/-- A document of the messages collection (messageModel.js). -/
structure Msg where
  mid : Nat
  senderId : Nat
  roomId : Str
  text : Str
  status : Status
  createdAt : Nat
  deliveredAt : Option Nat
  readAt : Option Nat
deriving DecidableEq

/-- The durable store: the four collections the core subsystem touches. -/
structure DB where
  users : List User
  rooms : List Room
  members : List Membership
  msgs : List Msg
deriving DecidableEq

/-- Result envelope of the REST controllers (factory.js sendSuccess /
sendFail with their HTTP status codes). -/
inductive ApiResult (α : Type) where
  | success (code : Nat) (a : α)
  | fail (code : Nat) (msg : String)
deriving DecidableEq

/-- Models saving one found document back into its collection: update the
first element satisfying the predicate, leave the rest unchanged. -/
def updateFirst (p : α → Bool) (f : α → α) : List α → List α
  | [] => []
  | x :: xs => if p x then f x :: xs else x :: updateFirst p f xs

/-- Embeds the filter of Message.markAsDelivered (findByIdAndUpdate by id,
with no condition on the current status). -/
def deliveredTarget (messageId : Nat) (m : Msg) : Bool :=
  m.mid == messageId

/-- Embeds Message.markAsDelivered (messageModel.js lines 103-118):
findByIdAndUpdate unconditionally setting status to Delivered and
deliveredAt, returning the updated document, erroring only when the id is
unknown. -/
def Message.markAsDelivered (db : DB) (messageId : Nat) (now : Nat) :
    Except String (DB × Msg) :=
  let msgs := db.msgs.map (fun m =>
    if deliveredTarget messageId m then
      { m with status := Status.Delivered, deliveredAt := some now }
    else m)
  match msgs.find? (deliveredTarget messageId) with
  | none => Except.error "Message not found"
  | some m => Except.ok ({ db with msgs := msgs }, m)

/-- The updateMany filter of Message.markAsRead: id in the given list and
status not already Read. -/
def readEligible (ids : List Nat) (m : Msg) : Bool :=
  ids.contains m.mid && m.status != Status.Read

/-- The per-document update of Message.markAsRead's updateMany. -/
def applyRead (ids : List Nat) (now : Nat) (m : Msg) : Msg :=
  if readEligible ids m then { m with status := Status.Read, readAt := some now } else m

/-- Embeds Message.markAsRead (messageModel.js lines 121-137): updateMany
setting status Read and readAt on the eligible documents; the value
returned to the caller is the updateMany result, of which the handlers
only ever read modifiedCount. -/
def Message.markAsRead (db : DB) (messageIds : List Nat) (now : Nat) :
    DB × Nat :=
  ({ db with msgs := db.msgs.map (applyRead messageIds now) },
   (db.msgs.filter (readEligible messageIds)).length)

/-- The updateMany filter of Message.markRoomAsRead: in the room, not sent
by the reader, not already Read. -/
def roomReadEligible (roomId : Str) (userId : Nat) (m : Msg) : Bool :=
  m.roomId == roomId && m.senderId != userId && m.status != Status.Read

/-- The find filter used by Message.markRoomAsRead to collect ids for the
broadcast: in the room, not sent by the reader, status Read, and readAt
within the last 1000 milliseconds. -/
def recentlyReadFilter (roomId : Str) (userId : Nat) (now : Nat) (m : Msg) : Bool :=
  m.roomId == roomId && m.senderId != userId && m.status == Status.Read &&
    (match m.readAt with
     | some t => decide (now ≤ t + 1000)
     | none => false)

/-- The per-document update of Message.markRoomAsRead's updateMany. -/
def applyRoomRead (roomId : Str) (userId : Nat) (now : Nat) (m : Msg) : Msg :=
  if roomReadEligible roomId userId m then
    { m with status := Status.Read, readAt := some now }
  else m

/-- Embeds Message.markRoomAsRead (messageModel.js lines 140-166):
updateMany over the eligible messages, then a second query returning the
ids of the messages read within the last second.  Result:
(updated store, modifiedCount, messageIds). -/
def Message.markRoomAsRead (db : DB) (roomId : Str) (userId : Nat) (now : Nat) :
    DB × Nat × List Nat :=
  let msgs := db.msgs.map (applyRoomRead roomId userId now)
  ({ db with msgs := msgs },
   (db.msgs.filter (roomReadEligible roomId userId)).length,
   (msgs.filter (recentlyReadFilter roomId userId now)).map (fun m => m.mid))

/-- The updateMany filter of RoomMember.incrementUnreadForOthers: an
active membership of the room that does not belong to the sender. -/
def unreadBumpTarget (roomRef : Nat) (senderId : Nat) (mb : Membership) : Bool :=
  mb.roomRef == roomRef && mb.userId != senderId && mb.leftAt == none

/-- Embeds RoomMember.incrementUnreadForOthers (roomMemberModel.js lines
77-91): updateMany incrementing unreadCount by 1 on every active
membership of the room other than the sender's. -/
def RoomMember.incrementUnreadForOthers (db : DB) (roomRef : Nat) (senderId : Nat) : DB :=
  { db with members := db.members.map (fun mb =>
      if unreadBumpTarget roomRef senderId mb then
        { mb with unreadCount := mb.unreadCount + 1 }
      else mb) }

/-- Embeds RoomMember.markAsRead (roomMemberModel.js lines 93-119): find
the room by its string id, then findOneAndUpdate the caller's active
membership, resetting unreadCount and stamping lastReadAt. -/
def RoomMember.markAsRead (db : DB) (roomIdString : Str) (userId : Nat) (now : Nat) :
    Except String DB :=
  match db.rooms.find? (fun r => r.roomId == roomIdString) with
  | none => Except.error "Room not found"
  | some room =>
    let p := fun (mb : Membership) =>
      mb.roomRef == room.rid && mb.userId == userId && mb.leftAt == none
    match db.members.find? p with
    | none => Except.error "You are not a member of this room"
    | some _ =>
      let members2 :=
        updateFirst p (fun mb => { mb with unreadCount := 0, lastReadAt := now }) db.members
      Except.ok { db with members := members2 }

/-- Embeds getRoomId (utils/room.js lines 27-31): lower-case both
usernames, sort them, and join them into a deterministic DM room id. -/
def getRoomId (username1 username2 : Str) : Str :=
  let a := jsToLower username1
  let b := jsToLower username2
  if lexLe a b then str "room:" ++ a ++ str "_" ++ b
  else str "room:" ++ b ++ str "_" ++ a

/-- Embeds findRoomById (utils/room.js): Room.findOne by string id. -/
def findRoomById (db : DB) (roomId : Str) : Option Room :=
  db.rooms.find? (fun r => r.roomId == roomId)

/-- Embeds findOrCreateDMRoom (utils/room.js lines 61-108): return the
existing room for the deterministic id, or create the room plus two
member-role memberships.  newRid is the object id the store would mint. -/
def findOrCreateDMRoom (db : DB) (user1Id user2Id : Nat) (username1 username2 : Str)
    (newRid : Nat) (now : Nat) : DB × Room :=
  let roomId := getRoomId username1 username2
  match findRoomById db roomId with
  | some room => (db, room)
  | none =>
    let room : Room :=
      { rid := newRid, roomId := roomId, rtype := RoomType.dm, name := none,
        lastMessage := [], lastMessageAt := now, createdBy := some user1Id }
    let m1 : Membership :=
      { roomRef := newRid, userId := user1Id, role := Role.member,
        unreadCount := 0, lastReadAt := now, joinedAt := now, leftAt := none }
    let m2 : Membership :=
      { roomRef := newRid, userId := user2Id, role := Role.member,
        unreadCount := 0, lastReadAt := now, joinedAt := now, leftAt := none }
    ({ db with rooms := db.rooms ++ [room], members := db.members ++ [m1, m2] }, room)

/-- Embeds createOrGetDM (roomController.js lines 25-60): resolve the
other user by lower-cased username (404 when absent), reject a self-DM
(400), otherwise delegate to findOrCreateDMRoom.  The requesting user is
taken from the request body and is never looked up. -/
def createOrGetDM (db : DB) (userId : Nat) (username : Str) (otherUsername : Str)
    (newRid : Nat) (now : Nat) : DB × ApiResult Room :=
  if otherUsername.isEmpty then (db, ApiResult.fail 400 "Please provide otherUsername")
  else
    match db.users.find? (fun u => u.username == jsToLower otherUsername) with
    | none => (db, ApiResult.fail 404 "User not found")
    | some otherUser =>
      if otherUser.uid == userId then
        (db, ApiResult.fail 400 "Cannot create DM with yourself")
      else
        let r := findOrCreateDMRoom db userId otherUser.uid username otherUsername newRid now
        (r.1, ApiResult.success 200 r.2)

/-- The message query filter of Message.getPaginatedMessages: in the room
and, when a cursor is given, strictly older than it. -/
def pageFilter (roomIdString : Str) (before : Option Nat) (m : Msg) : Bool :=
  m.roomId == roomIdString &&
    (match before with
     | some b => decide (m.createdAt < b)
     | none => true)

/-- Insert one message into a list kept newest-first (models the store
returning the query sorted by createdAt descending). -/
def insertByCreatedDesc (m : Msg) : List Msg → List Msg
  | [] => [m]
  | x :: xs =>
    if m.createdAt ≤ x.createdAt then x :: insertByCreatedDesc m xs
    else m :: x :: xs

/-- Sort messages newest-first by createdAt (models sort createdAt -1). -/
def sortByCreatedDesc : List Msg → List Msg
  | [] => []
  | x :: xs => insertByCreatedDesc x (sortByCreatedDesc xs)

/-- The result shape of Message.getPaginatedMessages. -/
structure PaginationResult where
  messages : List Msg
  hasMore : Bool
  oldestMessageTime : Option Nat
  count : Nat
deriving DecidableEq

/-- Embeds Message.getPaginatedMessages (messageModel.js lines 53-100):
default limit 30, cap 75, room lookup (throwing when absent), filtered
query sorted newest-first, one extra row fetched to detect hasMore, and
the createdAt of the oldest returned message as the next cursor. -/
def Message.getPaginatedMessages (db : DB) (roomIdString : Str)
    (limitOpt : Option Nat) (before : Option Nat) : Except String PaginationResult :=
  let limit := limitOpt.getD 30
  let actualLimit := min limit 75
  match db.rooms.find? (fun r => r.roomId == roomIdString) with
  | none => Except.error "Room not found"
  | some _ =>
    let sorted := sortByCreatedDesc (db.msgs.filter (pageFilter roomIdString before))
    let fetched := sorted.take (actualLimit + 1)
    let hasMore := decide (actualLimit < fetched.length)
    let actualMessages := if hasMore then fetched.take actualLimit else fetched
    Except.ok
      { messages := actualMessages,
        hasMore := hasMore,
        oldestMessageTime := (actualMessages.getLast?).map (fun m => m.createdAt),
        count := actualMessages.length }

/-- Active memberships of a room (the RoomMember find with leftAt null). -/
def activeMembersOf (db : DB) (rid : Nat) : List Membership :=
  db.members.filter (fun mb => mb.roomRef == rid && mb.leftAt == none)

/-- Active admin memberships of a room (the otherAdmins query of
leaveGroup). -/
def activeAdminsOf (db : DB) (rid : Nat) : List Membership :=
  db.members.filter (fun mb =>
    mb.roomRef == rid && mb.role == Role.admin && mb.leftAt == none)

/-- Models findOne({roomId, leftAt null}).sort({joinedAt 1}) applied to
the already-filtered active members: the first membership with the
smallest joinedAt. -/
def findOldestMember : List Membership → Option Membership
  | [] => none
  | mb :: rest =>
    match findOldestMember rest with
    | none => some mb
    | some best => if best.joinedAt < mb.joinedAt then some best else some mb

/-- Embeds leaveGroup (roomController.js lines 273-330): soft-delete the
caller's active membership and, when the departing member was an admin
and no active admin remains, promote the earliest-joined active member. -/
def leaveGroup (db : DB) (roomIdString : Str) (userId : Nat) (now : Nat) :
    DB × ApiResult String :=
  match db.rooms.find? (fun r => r.roomId == roomIdString && r.rtype == RoomType.group) with
  | none => (db, ApiResult.fail 404 "Group not found")
  | some room =>
    let pMem := fun (mb : Membership) =>
      mb.roomRef == room.rid && mb.userId == userId && mb.leftAt == none
    match db.members.find? pMem with
    | none => (db, ApiResult.fail 404 "You are not an active member of this group")
    | some membership =>
      let db1 : DB :=
        { db with members :=
            updateFirst pMem (fun mb => { mb with leftAt := some now }) db.members }
      if membership.role == Role.admin then
        if (activeAdminsOf db1 room.rid).length == 0 then
          match findOldestMember (activeMembersOf db1 room.rid) with
          | some oldest =>
            let members2 :=
              updateFirst (fun mb => mb == oldest)
                (fun mb => { mb with role := Role.admin }) db1.members
            ({ db1 with members := members2 },
             ApiResult.success 200 "Left group successfully")
          | none => (db1, ApiResult.success 200 "Left group successfully")
        else (db1, ApiResult.success 200 "Left group successfully")
      else (db1, ApiResult.success 200 "Left group successfully")

/-- A sequence of leave operations folded over the store. -/
def leaveSeq (db : DB) (ops : List (Str × Nat × Nat)) : DB :=
  ops.foldl (fun d op => (leaveGroup d op.1 op.2.1 op.2.2).1) db

/-- The per-target-user body of addGroupMembers's loop: create a
membership when none exists (counting it as created), reactivate a left
one (counting it as reactivated), leave an active one untouched. -/
def addMemberStep (room : Room) (now : Nat) (acc : DB × Nat × Nat) (user : User) :
    DB × Nat × Nat :=
  let d := acc.1
  match d.members.find? (fun mb => mb.roomRef == room.rid && mb.userId == user.uid) with
  | some existing =>
    if existing.leftAt != none then
      let ms :=
        updateFirst (fun mb => mb.roomRef == room.rid && mb.userId == user.uid)
          (fun mb => { mb with leftAt := none, joinedAt := now }) d.members
      ({ d with members := ms }, acc.2.1, acc.2.2 + 1)
    else acc
  | none =>
    let newMb : Membership :=
      { roomRef := room.rid, userId := user.uid, role := Role.member,
        unreadCount := 0, lastReadAt := now, joinedAt := now, leftAt := none }
    ({ d with members := d.members ++ [newMb] }, acc.2.1 + 1, acc.2.2)

/-- Embeds addGroupMembers (roomController.js lines 131-200): admin-gated;
for each resolved user create a membership when none exists, reactivate a
left one, or leave an active one untouched; returns (created,
reactivated) counts. -/
def addGroupMembers (db : DB) (roomIdString : Str) (userId : Nat)
    (usernames : List Str) (now : Nat) : DB × ApiResult (Nat × Nat) :=
  if usernames.isEmpty then
    (db, ApiResult.fail 400 "userId and usernames array are required")
  else
    match db.rooms.find? (fun r => r.roomId == roomIdString && r.rtype == RoomType.group) with
    | none => (db, ApiResult.fail 404 "Group not found")
    | some room =>
      match db.members.find? (fun mb =>
          mb.roomRef == room.rid && mb.userId == userId &&
            mb.role == Role.admin && mb.leftAt == none) with
      | none => (db, ApiResult.fail 403 "Only admins can add members to this group")
      | some _ =>
        let lowerUsernames := usernames.map jsToLower
        let users := db.users.filter (fun u => lowerUsernames.contains u.username)
        if users.length != usernames.length then
          (db, ApiResult.fail 404 "Some users not found")
        else
          let final := users.foldl (addMemberStep room now) (db, 0, 0)
          (final.1, ApiResult.success 200 (final.2.1, final.2.2))

/-- Embeds isUserInRoom (utils/room.js): an active membership exists. -/
def isUserInRoom (db : DB) (roomRef : Nat) (userId : Nat) : Bool :=
  (db.members.find? (fun mb =>
    mb.roomRef == roomRef && mb.userId == userId && mb.leftAt == none)).isSome

/-- Embeds handleSendMessage (chatHandlers.js lines 92-157): validate,
check room and membership, persist the trimmed message with status Sent
at time tCreate, update the room's lastMessage cache (first 100
characters) and lastMessageAt at the later wall-clock time tCache, then
bump the other members' unread counts.  The 500-character cap is the
messageSchema maxlength validator, which makes Message.create throw. -/
def handleSendMessage (db : DB) (roomId : Str) (userId : Nat) (text : Str)
    (newMid : Nat) (tCreate : Nat) (tCache : Nat) : Except String (DB × Msg) :=
  if roomId.isEmpty || text.isEmpty || (trimChars text).isEmpty then
    Except.error "Invalid message data"
  else
    match db.rooms.find? (fun r => r.roomId == roomId) with
    | none => Except.error "Room not found"
    | some room =>
      if !isUserInRoom db room.rid userId then
        Except.error "You are not a member of this room"
      else if 500 < (trimChars text).length then
        Except.error "Message cannot exceed 500 characters"
      else
        let msg : Msg :=
          { mid := newMid, senderId := userId, roomId := roomId,
            text := trimChars text, status := Status.Sent, createdAt := tCreate,
            deliveredAt := none, readAt := none }
        let db2 : DB :=
          { db with
            msgs := db.msgs ++ [msg],
            rooms := db.rooms.map (fun r =>
              if r.rid == room.rid then
                { r with lastMessage := (trimChars text).take 100, lastMessageAt := tCache }
              else r) }
        Except.ok (RoomMember.incrementUnreadForOthers db2 room.rid userId, msg)

/-- Embeds handleMessageRead (chatHandlers.js lines 212-239): collect the
ids (messageIds, falling back to [messageId]), run Message.markAsRead,
and broadcast the input ids.  The returned list is the broadcast
payload's messageIds field. -/
def handleMessageRead (db : DB) (messageId : Option Nat) (messageIds : Option (List Nat))
    (now : Nat) : Except String (DB × List Nat) :=
  let ids := match messageIds with
    | some l => l
    | none =>
      match messageId with
      | some i => [i]
      | none => []
  if ids.isEmpty then Except.error "Message ID(s) required"
  else
    let r := Message.markAsRead db ids now
    Except.ok (r.1, ids)

/-- Embeds handleMarkRoomRead (chatHandlers.js lines 242-279): bulk
room-read plus unread-counter reset; the returned list is the broadcast
payload (the ids reported by Message.markRoomAsRead). -/
def handleMarkRoomRead (db : DB) (roomId : Str) (userId : Nat) (now : Nat) :
    Except String (DB × List Nat) :=
  if roomId.isEmpty then Except.error "Room ID and User ID required"
  else
    let r := Message.markRoomAsRead db roomId userId now
    match RoomMember.markAsRead r.1 roomId userId now with
    | Except.error e => Except.error e
    | Except.ok db2 => Except.ok (db2, r.2.2)

/-! Concrete fixtures used by counterexamples and witnesses. -/

/-- A DM room fixture with string id "r". -/
def roomA : Room :=
  { rid := 7, roomId := str "r", rtype := RoomType.dm, name := none,
    lastMessage := [], lastMessageAt := 0, createdBy := none }

/-- A message that has already been Read. -/
def msgRead1 : Msg :=
  { mid := 1, senderId := 1, roomId := str "r", text := str "hi",
    status := Status.Read, createdAt := 10, deliveredAt := some 11, readAt := some 12 }

/-- A freshly sent message. -/
def msgSent5 : Msg :=
  { mid := 5, senderId := 1, roomId := str "r", text := str "hi",
    status := Status.Sent, createdAt := 10, deliveredAt := none, readAt := none }

/-- Store with one already-Read message. -/
def dbRead : DB := { users := [], rooms := [roomA], members := [], msgs := [msgRead1] }

/-- Store with one freshly sent message. -/
def dbSent : DB := { users := [], rooms := [roomA], members := [], msgs := [msgSent5] }

/-- C1: refuted on the code.  Message.markAsDelivered carries no guard on
the current status: invoked on a message whose status is already Read it
sets the status back to Delivered (and restamps deliveredAt), regressing
the documented Sent → Delivered → Read state machine.  This theorem
evaluates the embedded code at the failing input: a store whose only
message is Read, delivered again at time 20. -/
theorem C1_markAsDelivered_regresses_Read :
    msgRead1.status = Status.Read ∧
    Message.markAsDelivered dbRead 1 20 =
      Except.ok
        ({ dbRead with msgs := [{ msgRead1 with status := Status.Delivered, deliveredAt := some 20 }] },
         { msgRead1 with status := Status.Delivered, deliveredAt := some 20 }) :=
  ⟨rfl, rfl⟩

/-- C2 counterexample: the claim "an immediate second call returns an
empty changed-set" fails.  After user 2 marks room "r" read at time 100,
an immediate second call modifies nothing (modifiedCount 0 and the store
is unchanged) yet still returns message id 5, because the broadcast query
selects every message read within the last 1000 ms, not the messages
changed by this call. -/
theorem C2_second_call_returns_nonempty :
    (Message.markRoomAsRead (Message.markRoomAsRead dbSent (str "r") 2 100).1 (str "r") 2 100).2.1 = 0 ∧
    (Message.markRoomAsRead (Message.markRoomAsRead dbSent (str "r") 2 100).1 (str "r") 2 100).2.2 = [5] ∧
    (Message.markRoomAsRead dbSent (str "r") 2 100).2.2 = [5] :=
  ⟨rfl, rfl, rfl⟩

/-- C4 counterexample: for input id 1 whose message is already Read,
Message.markAsRead changes nothing and returns modifiedCount 0 (a count,
not a set of ids), while handleMessageRead still broadcasts the input id
set [1], re-announcing the already-read message — contradicting the claim
that the broadcast set is the set of ids actually changed. -/
theorem C4_broadcasts_input_ids :
    (Message.markAsRead dbRead [1] 50).2 = 0 ∧
    handleMessageRead dbRead none (some [1]) 50 = Except.ok (dbRead, [1]) :=
  ⟨rfl, rfl⟩

/-- The only user of the C8 store. -/
def bobUser : User := { uid := 2, username := str "bob" }

/-- Store holding just the user bob. -/
def dbBob : DB := { users := [bobUser], rooms := [], members := [], msgs := [] }

/-- The room the C8 counterexample ends up creating. -/
def ghostRoom : Room :=
  { rid := 50, roomId := str "room:bob_ghost", rtype := RoomType.dm, name := none,
    lastMessage := [], lastMessageAt := 100, createdBy := some 999 }

/-- C8 counterexample: the requesting user is taken from the request body
and never looked up, so with a store containing only bob, a request from
the nonexistent user id 999 does not fail NotFound — it succeeds and
creates the room and both memberships (one of them referencing the
nonexistent user). -/
theorem C8_missing_requester_not_rejected :
    (dbBob.users.find? (fun u => u.uid == 999) = none) ∧
    createOrGetDM dbBob 999 (str "ghost") (str "bob") 50 100 =
      ({ dbBob with
          rooms := [ghostRoom],
          members :=
            [{ roomRef := 50, userId := 999, role := Role.member,
               unreadCount := 0, lastReadAt := 100, joinedAt := 100, leftAt := none },
             { roomRef := 50, userId := 2, role := Role.member,
               unreadCount := 0, lastReadAt := 100, joinedAt := 100, leftAt := none }] },
       ApiResult.success 200 ghostRoom) :=
  ⟨rfl, rfl⟩

/-! Generic helper lemmas about the embedding's primitives. -/

/-- Elements of updateFirst come from the original list, possibly with f
applied. -/
theorem mem_updateFirst {p : α → Bool} {f : α → α} :
    ∀ (l : List α) (b : α), b ∈ updateFirst p f l → ∃ y ∈ l, b = y ∨ b = f y := by
  intro l
  induction l with
  | nil => intro b hb; cases hb
  | cons x xs ih =>
    intro b hb
    by_cases hx : p x = true
    · simp only [updateFirst, hx, if_true] at hb
      cases hb with
      | head => exact ⟨x, List.mem_cons_self x xs, Or.inr rfl⟩
      | tail _ h => exact ⟨b, List.mem_cons_of_mem x h, Or.inl rfl⟩
    · simp only [updateFirst, hx, if_false] at hb
      cases hb with
      | head => exact ⟨x, List.mem_cons_self x xs, Or.inl rfl⟩
      | tail _ h =>
        rcases ih b h with ⟨y, hy, hby⟩
        exact ⟨y, List.mem_cons_of_mem x hy, hby⟩

/-- When find? locates a document, the list splits around that document
and updateFirst rewrites exactly it. -/
theorem updateFirst_decomp {p : α → Bool} :
    ∀ (l : List α) (a : α), l.find? p = some a →
      ∃ l₁ l₂, l = l₁ ++ a :: l₂ ∧ (∀ x ∈ l₁, p x = false) ∧
        ∀ f, updateFirst p f l = l₁ ++ f a :: l₂ := by
  intro l
  induction l with
  | nil => intro a ha; cases ha
  | cons x xs ih =>
    intro a ha
    by_cases hx : p x = true
    · have hxa : x = a := by
        rw [List.find?_cons_of_pos _ hx] at ha
        exact Option.some.inj ha
      subst hxa
      refine ⟨[], xs, by simp, ?_, ?_⟩
      · intro y hy; cases hy
      · intro f
        simp [updateFirst, hx]
    · rw [List.find?_cons_of_neg _ hx] at ha
      rcases ih a ha with ⟨l₁, l₂, hsplit, hpref, hupd⟩
      refine ⟨x :: l₁, l₂, by simp [hsplit], ?_, ?_⟩
      · intro y hy
        cases hy with
        | head => exact Bool.eq_false_iff.mpr hx
        | tail _ h => exact hpref y h
      · intro f
        simp [updateFirst, hx, hupd f]

/-- find? with an equality predicate locates the element itself. -/
theorem find?_beq_self [BEq α] [LawfulBEq α] :
    ∀ (l : List α) (a : α), a ∈ l → l.find? (fun x => x == a) = some a := by
  intro l
  induction l with
  | nil => intro a ha; cases ha
  | cons x xs ih =>
    intro a ha
    by_cases hx : x = a
    · subst hx
      exact List.find?_cons_of_pos _ (by simp)
    · rw [List.find?_cons_of_neg _ (by simp [hx])]
      have hxs : a ∈ xs := by
        cases ha with
        | head => exact absurd rfl hx
        | tail _ h => exact h
      exact ih a hxs

/-- findOldestMember is none exactly on the empty list. -/
theorem findOldestMember_eq_none :
    ∀ (l : List Membership), findOldestMember l = none ↔ l = [] := by
  intro l
  cases l with
  | nil => simp [findOldestMember]
  | cons x xs =>
    constructor
    · intro h
      simp only [findOldestMember] at h
      split at h
      · cases h
      · split at h <;> cases h
    · intro h; cases h

/-- findOldestMember returns a member of the list. -/
theorem findOldestMember_mem :
    ∀ (l : List Membership) (b : Membership), findOldestMember l = some b → b ∈ l := by
  intro l
  induction l with
  | nil => intro b hb; cases hb
  | cons x xs ih =>
    intro b hb
    simp only [findOldestMember] at hb
    split at hb
    · rw [← Option.some.inj hb]
      exact List.mem_cons_self x xs
    · rename_i best heq
      by_cases hlt : best.joinedAt < x.joinedAt
      · rw [if_pos hlt] at hb
        have hbb : best = b := Option.some.inj hb
        exact List.mem_cons_of_mem x (ih b (by rw [← hbb]; exact heq))
      · rw [if_neg hlt] at hb
        rw [← Option.some.inj hb]
        exact List.mem_cons_self x xs

/-- findOldestMember returns a member with minimal joinedAt. -/
theorem findOldestMember_min :
    ∀ (l : List Membership) (b : Membership), findOldestMember l = some b →
      ∀ mb ∈ l, b.joinedAt ≤ mb.joinedAt := by
  intro l
  induction l with
  | nil => intro b hb; cases hb
  | cons x xs ih =>
    intro b hb mb hmb
    simp only [findOldestMember] at hb
    split at hb
    · rename_i heq
      have hxb : x = b := Option.some.inj hb
      have hxs : xs = [] := (findOldestMember_eq_none xs).mp heq
      subst hxs
      cases hmb with
      | head => exact Nat.le_of_eq (by rw [hxb])
      | tail _ h => cases h
    · rename_i best heq
      by_cases hlt : best.joinedAt < x.joinedAt
      · rw [if_pos hlt] at hb
        have hbb : best = b := Option.some.inj hb
        subst hbb
        cases hmb with
        | head => exact Nat.le_of_lt hlt
        | tail _ h => exact ih best heq mb h
      · rw [if_neg hlt] at hb
        have hxb : x = b := Option.some.inj hb
        subst hxb
        cases hmb with
        | head => exact Nat.le_refl _
        | tail _ h => exact Nat.le_trans (Nat.le_of_not_lt hlt) (ih best heq mb h)

/-- C5: RoomMember.incrementUnreadForOthers bumps unreadCount by exactly 1
at every position holding an active membership of the room that is not
the sender's, and leaves every other membership (the sender's, members
who left, members of other rooms) untouched. -/
theorem C5_incrementUnreadForOthers_exact :
    ∀ (db : DB) (roomRef senderId : Nat) (i : Nat),
      ((RoomMember.incrementUnreadForOthers db roomRef senderId).members)[i]? =
        (db.members)[i]?.map (fun mb =>
          if mb.roomRef = roomRef ∧ mb.userId ≠ senderId ∧ mb.leftAt = none then
            { mb with unreadCount := mb.unreadCount + 1 }
          else mb) := by
  intro db roomRef senderId i
  simp only [RoomMember.incrementUnreadForOthers, List.getElem?_map]
  cases h : (db.members)[i]? with
  | none => rfl
  | some mb =>
    simp only [Option.map_some']
    by_cases h1 : mb.roomRef = roomRef <;> by_cases h2 : mb.userId = senderId <;>
      by_cases h3 : mb.leftAt = none <;>
        simp [unreadBumpTarget, h1, h2, h3]

/-! Lemmas about the lexicographic order used by getRoomId. -/

/-- Characters with equal code points are equal. -/
theorem charToNat_inj {a b : Char} (h : a.toNat = b.toNat) : a = b :=
  Char.eq_of_val_eq (UInt32.toNat.inj h)

/-- lexLe is total. -/
theorem lexLe_total : ∀ (a b : Str), lexLe a b = true ∨ lexLe b a = true := by
  intro a
  induction a with
  | nil => intro b; exact Or.inl rfl
  | cons c cs ih =>
    intro b
    cases b with
    | nil => exact Or.inr rfl
    | cons d ds =>
      rcases Nat.lt_trichotomy c.toNat d.toNat with h | h | h
      · left; simp [lexLe, h]
      · have h2 : ¬ c.toNat < d.toNat := by omega
        have h3 : ¬ d.toNat < c.toNat := by omega
        rcases ih ds with h4 | h4
        · left; simp [lexLe, h2, h3, h4]
        · right; simp [lexLe, h2, h3, h4]
      · right; simp [lexLe, h]

/-- lexLe is antisymmetric. -/
theorem lexLe_antisymm : ∀ (a b : Str), lexLe a b = true → lexLe b a = true → a = b := by
  intro a
  induction a with
  | nil =>
    intro b h1 h2
    cases b with
    | nil => rfl
    | cons d ds => simp [lexLe] at h2
  | cons c cs ih =>
    intro b h1 h2
    cases b with
    | nil => simp [lexLe] at h1
    | cons d ds =>
      rcases Nat.lt_trichotomy c.toNat d.toNat with h | h | h
      · exfalso
        have h3 : ¬ d.toNat < c.toNat := by omega
        simp [lexLe, h, h3] at h2
      · have h2' : ¬ c.toNat < d.toNat := by omega
        have h3 : ¬ d.toNat < c.toNat := by omega
        have hcd : c = d := charToNat_inj h
        have htail : cs = ds := by
          apply ih ds
          · simpa [lexLe, h2', h3] using h1
          · simpa [lexLe, h2', h3] using h2
        rw [hcd, htail]
      · exfalso
        have h3 : ¬ c.toNat < d.toNat := by omega
        simp [lexLe, h, h3] at h1

/-- The DM room id is order-independent in its two usernames. -/
theorem getRoomId_comm (a b : Str) : getRoomId a b = getRoomId b a := by
  unfold getRoomId
  by_cases h1 : lexLe (jsToLower a) (jsToLower b) = true
  · by_cases h2 : lexLe (jsToLower b) (jsToLower a) = true
    · have he := lexLe_antisymm _ _ h1 h2
      simp [h1, h2, he]
    · simp [h1, h2]
  · rcases lexLe_total (jsToLower a) (jsToLower b) with h | h
    · exact absurd h h1
    · simp [h1, h]

/-- C3: the DM room identifier is a pure, order-independent function of
the two lower-cased usernames, and a repeated findOrCreateDMRoom call for
the same pair (in either order) returns the already-existing room and
leaves the store unchanged — no duplicate Room and no duplicate
Membership rows. -/
theorem C3_resolveOrCreateDM_deterministic :
    (∀ a b : Str, getRoomId a b = getRoomId b a) ∧
    (∀ (db : DB) (u1 u2 v1 v2 : Nat) (a b : Str) (rid now rid2 now2 : Nat),
       findOrCreateDMRoom (findOrCreateDMRoom db u1 u2 a b rid now).1 v1 v2 b a rid2 now2 =
         findOrCreateDMRoom db u1 u2 a b rid now) := by
  constructor
  · exact getRoomId_comm
  · intro db u1 u2 v1 v2 a b rid now rid2 now2
    cases h : findRoomById db (getRoomId a b) with
    | some room =>
      simp only [findOrCreateDMRoom, h]
      rw [getRoomId_comm b a, h]
    | none =>
      simp only [findOrCreateDMRoom, h]
      rw [getRoomId_comm b a]
      have hfind :
          findRoomById
            { db with
              rooms := db.rooms ++
                [{ rid := rid, roomId := getRoomId a b, rtype := RoomType.dm, name := none,
                   lastMessage := [], lastMessageAt := now, createdBy := some u1 }],
              members := db.members ++
                [{ roomRef := rid, userId := u1, role := Role.member, unreadCount := 0,
                   lastReadAt := now, joinedAt := now, leftAt := none },
                 { roomRef := rid, userId := u2, role := Role.member, unreadCount := 0,
                   lastReadAt := now, joinedAt := now, leftAt := none }] }
            (getRoomId a b) =
          some { rid := rid, roomId := getRoomId a b, rtype := RoomType.dm, name := none,
                 lastMessage := [], lastMessageAt := now, createdBy := some u1 } := by
        unfold findRoomById at h ⊢
        rw [List.find?_append, h]
        simp
      rw [hfind]

/-! Lemmas about the bulk room-read update. -/

/-- A document produced by applyRoomRead is never again eligible. -/
theorem roomReadEligible_applyRoomRead (roomId : Str) (userId now : Nat) (m : Msg) :
    roomReadEligible roomId userId (applyRoomRead roomId userId now m) = false := by
  unfold applyRoomRead
  by_cases h : roomReadEligible roomId userId m = true
  · rw [if_pos h]
    simp [roomReadEligible]
  · rw [if_neg h]
    exact Bool.eq_false_iff.mpr h

/-- applyRoomRead fixes a non-eligible document. -/
theorem applyRoomRead_of_not_eligible {roomId : Str} {userId now : Nat} {m : Msg}
    (h : roomReadEligible roomId userId m = false) :
    applyRoomRead roomId userId now m = m := by
  unfold applyRoomRead
  rw [h]
  simp

/-- A second room-read pass over already-updated messages is the
identity. -/
theorem map_applyRoomRead_applyRoomRead (roomId : Str) (userId now now2 : Nat)
    (l : List Msg) :
    (l.map (applyRoomRead roomId userId now)).map (applyRoomRead roomId userId now2) =
      l.map (applyRoomRead roomId userId now) := by
  rw [List.map_map]
  apply List.map_congr_left
  intro m _
  exact applyRoomRead_of_not_eligible (roomReadEligible_applyRoomRead roomId userId now m)

/-- No document of an already-updated room-read pass is eligible. -/
theorem filter_roomReadEligible_map (roomId : Str) (userId now : Nat) (l : List Msg) :
    (l.map (applyRoomRead roomId userId now)).filter (roomReadEligible roomId userId) = [] := by
  rw [List.filter_eq_nil_iff]
  intro a ha
  rcases List.mem_map.mp ha with ⟨m, _, rfl⟩
  simp [roomReadEligible_applyRoomRead]

/-- C2 (amended): Message.markRoomAsRead transitions exactly the eligible
messages (in the room, not sent by the reader, not already Read) to Read
with readAt stamped, and the state update is idempotent — an immediate
second call changes no message and reports modifiedCount 0.  However its
returned id list is the set of in-room messages not sent by the reader
whose readAt lies within the last 1000 ms, so an immediate second call
returns the same (generally non-empty) id list rather than an empty
one. -/
theorem C2_markRoomAsRead_amended :
    (∀ (db : DB) (roomId : Str) (userId now : Nat) (i : Nat),
       ((Message.markRoomAsRead db roomId userId now).1.msgs)[i]? =
         (db.msgs)[i]?.map (fun m =>
           if m.roomId = roomId ∧ m.senderId ≠ userId ∧ m.status ≠ Status.Read then
             { m with status := Status.Read, readAt := some now }
           else m)) ∧
    (∀ (db : DB) (roomId : Str) (userId now now2 : Nat),
       (Message.markRoomAsRead (Message.markRoomAsRead db roomId userId now).1 roomId userId now2).1 =
         (Message.markRoomAsRead db roomId userId now).1 ∧
       (Message.markRoomAsRead (Message.markRoomAsRead db roomId userId now).1 roomId userId now2).2.1 = 0) ∧
    (∀ (db : DB) (roomId : Str) (userId now : Nat),
       (Message.markRoomAsRead (Message.markRoomAsRead db roomId userId now).1 roomId userId now).2.2 =
         (Message.markRoomAsRead db roomId userId now).2.2) := by
  refine ⟨?_, ?_, ?_⟩
  · intro db roomId userId now i
    simp only [Message.markRoomAsRead, List.getElem?_map]
    cases h : (db.msgs)[i]? with
    | none => rfl
    | some m =>
      simp only [Option.map_some']
      by_cases h1 : m.roomId = roomId <;> by_cases h2 : m.senderId = userId <;>
        by_cases h3 : m.status = Status.Read <;>
          simp [applyRoomRead, roomReadEligible, h1, h2, h3]
  · intro db roomId userId now now2
    constructor
    · simp only [Message.markRoomAsRead]
      rw [map_applyRoomRead_applyRoomRead]
    · simp only [Message.markRoomAsRead]
      rw [filter_roomReadEligible_map]
      rfl
  · intro db roomId userId now
    simp only [Message.markRoomAsRead]
    rw [map_applyRoomRead_applyRoomRead]

/-! Lemmas about the bulk id-list read update. -/

/-- C4 (amended): Message.markAsRead updates exactly the input-id
messages not already Read (setting status Read and stamping readAt on
that touched subset only), but it returns only the modified-document
count, not a set of ids; and handleMessageRead broadcasts the input id
set, re-announcing already-read messages. -/
theorem C4_markAsRead_amended :
    (∀ (db : DB) (ids : List Nat) (now : Nat) (i : Nat),
       ((Message.markAsRead db ids now).1.msgs)[i]? =
         (db.msgs)[i]?.map (fun m =>
           if m.mid ∈ ids ∧ m.status ≠ Status.Read then
             { m with status := Status.Read, readAt := some now }
           else m)) ∧
    (∀ (db : DB) (ids : List Nat) (now : Nat),
       (Message.markAsRead db ids now).2 =
         (db.msgs.filter (fun m => decide (m.mid ∈ ids ∧ m.status ≠ Status.Read))).length) ∧
    (∀ (db : DB) (ids : List Nat) (now : Nat), ids ≠ [] →
       handleMessageRead db none (some ids) now =
         Except.ok ((Message.markAsRead db ids now).1, ids)) := by
  refine ⟨?_, ?_, ?_⟩
  · intro db ids now i
    simp only [Message.markAsRead, List.getElem?_map]
    cases h : (db.msgs)[i]? with
    | none => rfl
    | some m =>
      simp only [Option.map_some']
      by_cases h1 : m.mid ∈ ids <;> by_cases h2 : m.status = Status.Read <;>
        simp [applyRead, readEligible, h1, h2]
  · intro db ids now
    simp only [Message.markAsRead]
    congr 1
    apply List.filter_congr
    intro m _
    by_cases h1 : m.mid ∈ ids <;> by_cases h2 : m.status = Status.Read <;>
      simp [readEligible, h1, h2]
  · intro db ids now h
    cases ids with
    | nil => exact absurd rfl h
    | cons a as => rfl

/-- Witness for C4: at the concrete store dbSent, handleMessageRead
broadcasts exactly the input id set [5]. -/
theorem C4_markAsRead_amended_witness :
    handleMessageRead dbSent none (some [5]) 60 =
      Except.ok ((Message.markAsRead dbSent [5] 60).1, [5]) :=
  C4_markAsRead_amended.2.2 dbSent [5] 60 (by decide)

/-- An entirely empty store. -/
def dbEmpty : DB := { users := [], rooms := [], members := [], msgs := [] }

/-- C8 (amended): createOrGetDM fails NotFound (404) when the *other*
user does not exist and fails InvalidOperation (400) when the resolved
other user is the requester (self-DM); in both failure cases the store is
returned unchanged, so no Room and no Membership rows are created.  The
requesting user's own existence is never checked (see the
counterexample). -/
theorem C8_createOrGetDM_failures :
    (∀ (db : DB) (userId : Nat) (username other : Str) (rid now : Nat),
       other.isEmpty = false →
       db.users.find? (fun u => u.username == jsToLower other) = none →
       createOrGetDM db userId username other rid now =
         (db, ApiResult.fail 404 "User not found")) ∧
    (∀ (db : DB) (userId : Nat) (username other : Str) (rid now : Nat) (u : User),
       other.isEmpty = false →
       db.users.find? (fun uu => uu.username == jsToLower other) = some u →
       u.uid = userId →
       createOrGetDM db userId username other rid now =
         (db, ApiResult.fail 400 "Cannot create DM with yourself")) := by
  constructor
  · intro db userId username other rid now hne hfind
    simp [createOrGetDM, hne, hfind]
  · intro db userId username other rid now u hne hfind huid
    simp [createOrGetDM, hne, hfind, huid]

/-- Witness for C8's amended theorem: on the empty store, a DM request
naming the absent user "x" fails 404 and leaves the store unchanged. -/
theorem C8_createOrGetDM_failures_witness :
    createOrGetDM dbEmpty 1 (str "a") (str "x") 9 9 =
      (dbEmpty, ApiResult.fail 404 "User not found") :=
  C8_createOrGetDM_failures.1 dbEmpty 1 (str "a") (str "x") 9 9 (by decide) (by decide)

/-- C10: after every successful real-time send, the room's cached
lastMessage is only the first 100 characters of the trimmed text (longer
texts are silently truncated in the cache), the stored message keeps the
full trimmed text (which success bounds at 500 characters), the message
is persisted with createdAt = tCreate, and lastMessageAt is stamped with
the cache-update wall-clock time tCache, which is a different clock read
from the message's createdAt. -/
theorem C10_handleSendMessage_cache :
    ∀ (db : DB) (roomId : Str) (userId : Nat) (text : Str) (newMid tCreate tCache : Nat)
      (db' : DB) (msg : Msg),
      handleSendMessage db roomId userId text newMid tCreate tCache = Except.ok (db', msg) →
      msg.text = trimChars text ∧ msg.text.length ≤ 500 ∧ msg.createdAt = tCreate ∧
      msg ∈ db'.msgs ∧
      ∃ r ∈ db'.rooms, r.roomId = roomId ∧
        r.lastMessage = (trimChars text).take 100 ∧ r.lastMessageAt = tCache := by
  intro db roomId userId text newMid tCreate tCache db' msg h
  unfold handleSendMessage at h
  split at h
  · exact Except.noConfusion h
  · split at h
    · exact Except.noConfusion h
    · rename_i room hroom
      split at h
      · exact Except.noConfusion h
      · split at h
        · exact Except.noConfusion h
        · rename_i hmem hlen
          rw [Except.ok.injEq, Prod.mk.injEq] at h
          obtain ⟨hdb, hmsg⟩ := h
          subst hdb
          subst hmsg
          refine ⟨rfl, Nat.le_of_not_lt hlen, rfl, ?_, ?_⟩
          · simp only [RoomMember.incrementUnreadForOthers]
            exact List.mem_append_right _ (List.mem_cons_self _ _)
          · have hrid : room.roomId = roomId := by
              have := List.find?_some hroom
              exact eq_of_beq this
            refine ⟨{ room with lastMessage := (trimChars text).take 100, lastMessageAt := tCache }, ?_, by simpa using hrid, rfl, rfl⟩
            simp only [RoomMember.incrementUnreadForOthers]
            have hin : room ∈ db.rooms := List.mem_of_find?_eq_some hroom
            have := List.mem_map_of_mem
              (fun r => if r.rid == room.rid then
                { r with lastMessage := (trimChars text).take 100, lastMessageAt := tCache }
               else r) hin
            simpa using this

/-- The sender's own membership in the send fixture. -/
def memberSender : Membership :=
  { roomRef := 7, userId := 1, role := Role.member, unreadCount := 0,
    lastReadAt := 0, joinedAt := 0, leftAt := none }

/-- Store from which the C10 witness sends. -/
def dbSend : DB := { users := [], rooms := [roomA], members := [memberSender], msgs := [] }

/-- A 120-character message text (long enough to be truncated to 100 in
the cache while stored in full). -/
def longText : Str := List.replicate 120 'a'

/-- The message the C10 witness send persists. -/
def msgSend9 : Msg :=
  { mid := 9, senderId := 1, roomId := str "r", text := longText,
    status := Status.Sent, createdAt := 10, deliveredAt := none, readAt := none }

/-- The store after the C10 witness send: cache truncated to 100
characters, lastMessageAt = 11 (cache time), message stored in full. -/
def dbAfterSend : DB :=
  { users := [],
    rooms := [{ roomA with lastMessage := List.replicate 100 'a', lastMessageAt := 11 }],
    members := [memberSender], msgs := [msgSend9] }

/-- Witness for C10: the concrete 120-character send at create-time 10
and cache-time 11. -/
theorem C10_handleSendMessage_cache_witness :
    handleSendMessage dbSend (str "r") 1 longText 9 10 11 = Except.ok (dbAfterSend, msgSend9) ∧
    (msgSend9.text = trimChars longText ∧ msgSend9.text.length ≤ 500 ∧
      msgSend9.createdAt = 10 ∧ msgSend9 ∈ dbAfterSend.msgs ∧
      ∃ r ∈ dbAfterSend.rooms, r.roomId = str "r" ∧
        r.lastMessage = (trimChars longText).take 100 ∧ r.lastMessageAt = 11) :=
  ⟨rfl, C10_handleSendMessage_cache dbSend (str "r") 1 longText 9 10 11 dbAfterSend msgSend9 rfl⟩

/-! Uniqueness of memberships (C9). -/

/-- At most one membership document per (roomRef, userId) pair. -/
def uniqueMem (l : List Membership) : Prop :=
  l.Pairwise (fun a b => ¬(a.roomRef = b.roomRef ∧ a.userId = b.userId))

/-- updateFirst with a key-preserving update keeps memberships unique. -/
theorem uniqueMem_updateFirst (p : Membership → Bool) (f : Membership → Membership)
    (hf : ∀ mb, (f mb).roomRef = mb.roomRef ∧ (f mb).userId = mb.userId) :
    ∀ l, uniqueMem l → uniqueMem (updateFirst p f l) := by
  intro l
  induction l with
  | nil => intro h; simpa [updateFirst] using h
  | cons x xs ih =>
    intro h
    rcases List.pairwise_cons.mp h with ⟨hx, hxs⟩
    by_cases hp : p x = true
    · simp only [updateFirst, hp, if_true]
      apply List.pairwise_cons.mpr
      refine ⟨?_, hxs⟩
      intro b hb
      rw [(hf x).1, (hf x).2]
      exact hx b hb
    · simp only [updateFirst, hp, if_false]
      apply List.pairwise_cons.mpr
      refine ⟨?_, ih hxs⟩
      intro b hb
      rcases mem_updateFirst _ b hb with ⟨y, hy, hby⟩
      rcases hby with hby | hby
      · rw [hby]
        exact hx y hy
      · rw [hby, (hf y).1, (hf y).2]
        exact hx y hy

/-- Appending a membership whose key is absent keeps memberships
unique. -/
theorem uniqueMem_append_new (l : List Membership) (n : Membership)
    (hnone : ∀ mb ∈ l, ¬(mb.roomRef = n.roomRef ∧ mb.userId = n.userId))
    (h : uniqueMem l) : uniqueMem (l ++ [n]) := by
  apply List.pairwise_append.mpr
  refine ⟨h, List.pairwise_singleton _ _, ?_⟩
  intro a ha b hb
  rcases List.mem_singleton.mp hb with rfl
  exact hnone a ha

/-- One loop step of addGroupMembers keeps memberships unique. -/
theorem addMemberStep_uniqueMem (room : Room) (now : Nat) (acc : DB × Nat × Nat)
    (user : User) (h : uniqueMem acc.1.members) :
    uniqueMem (addMemberStep room now acc user).1.members := by
  unfold addMemberStep
  cases hfind : acc.1.members.find?
      (fun mb => mb.roomRef == room.rid && mb.userId == user.uid) with
  | some existing =>
    by_cases hleft : existing.leftAt != none
    · simp only [hfind, hleft, if_true]
      exact uniqueMem_updateFirst (fun mb => mb.roomRef == room.rid && mb.userId == user.uid)
        (fun mb => { mb with leftAt := none, joinedAt := now })
        (fun mb => ⟨rfl, rfl⟩) acc.1.members h
    · simp only [hfind, hleft, if_false]
      exact h
  | none =>
    simp only [hfind]
    apply uniqueMem_append_new _ _ ?_ h
    intro mb hmb hk
    have := List.find?_eq_none.mp hfind mb hmb
    apply this
    simp [hk.1, hk.2]

/-- The whole addGroupMembers loop keeps memberships unique. -/
theorem foldl_addMemberStep_uniqueMem (room : Room) (now : Nat) :
    ∀ (users : List User) (acc : DB × Nat × Nat), uniqueMem acc.1.members →
      uniqueMem ((users.foldl (addMemberStep room now) acc).1.members) := by
  intro users
  induction users with
  | nil => intro acc h; exact h
  | cons u us ih =>
    intro acc h
    exact ih _ (addMemberStep_uniqueMem room now acc u h)

/-- C9: addGroupMembers preserves the at-most-one-membership-per
(room, user) invariant, and for a single target user it creates a new
member-role membership only when none exists (counting (1,0)),
reactivates a membership that had left — rewriting exactly that one
document to leftAt none with a refreshed joinedAt, never adding a second
document — (counting (0,1)), and leaves an already-active membership and
the whole store unchanged (counting (0,0)). -/
theorem C9_addGroupMembers_membership_unique :
    (∀ (db : DB) (roomIdString : Str) (userId : Nat) (usernames : List Str) (now : Nat),
       uniqueMem db.members →
       uniqueMem (addGroupMembers db roomIdString userId usernames now).1.members) ∧
    (∀ (db : DB) (roomIdString : Str) (adminId : Nat) (w : Str) (now : Nat)
       (room : Room) (adm : Membership) (target : User),
       db.rooms.find? (fun r => r.roomId == roomIdString && r.rtype == RoomType.group) =
         some room →
       db.members.find? (fun mb => mb.roomRef == room.rid && mb.userId == adminId &&
         mb.role == Role.admin && mb.leftAt == none) = some adm →
       db.users.filter (fun u => ([w].map jsToLower).contains u.username) = [target] →
       db.members.find? (fun mb => mb.roomRef == room.rid && mb.userId == target.uid) =
         none →
       addGroupMembers db roomIdString adminId [w] now =
         ({ db with members := db.members ++
             [{ roomRef := room.rid, userId := target.uid, role := Role.member,
                unreadCount := 0, lastReadAt := now, joinedAt := now, leftAt := none }] },
          ApiResult.success 200 (1, 0))) ∧
    (∀ (db : DB) (roomIdString : Str) (adminId : Nat) (w : Str) (now : Nat)
       (room : Room) (adm : Membership) (target : User) (ex : Membership),
       db.rooms.find? (fun r => r.roomId == roomIdString && r.rtype == RoomType.group) =
         some room →
       db.members.find? (fun mb => mb.roomRef == room.rid && mb.userId == adminId &&
         mb.role == Role.admin && mb.leftAt == none) = some adm →
       db.users.filter (fun u => ([w].map jsToLower).contains u.username) = [target] →
       db.members.find? (fun mb => mb.roomRef == room.rid && mb.userId == target.uid) =
         some ex →
       ex.leftAt ≠ none →
       ∃ l₁ l₂, db.members = l₁ ++ ex :: l₂ ∧
         addGroupMembers db roomIdString adminId [w] now =
           ({ db with members := l₁ ++ { ex with leftAt := none, joinedAt := now } :: l₂ },
            ApiResult.success 200 (0, 1))) ∧
    (∀ (db : DB) (roomIdString : Str) (adminId : Nat) (w : Str) (now : Nat)
       (room : Room) (adm : Membership) (target : User) (ex : Membership),
       db.rooms.find? (fun r => r.roomId == roomIdString && r.rtype == RoomType.group) =
         some room →
       db.members.find? (fun mb => mb.roomRef == room.rid && mb.userId == adminId &&
         mb.role == Role.admin && mb.leftAt == none) = some adm →
       db.users.filter (fun u => ([w].map jsToLower).contains u.username) = [target] →
       db.members.find? (fun mb => mb.roomRef == room.rid && mb.userId == target.uid) =
         some ex →
       ex.leftAt = none →
       addGroupMembers db roomIdString adminId [w] now =
         (db, ApiResult.success 200 (0, 0))) := by
  refine ⟨?_, ?_, ?_, ?_⟩
  · intro db roomIdString userId usernames now h
    unfold addGroupMembers
    split
    · exact h
    · split
      · exact h
      · split
        · exact h
        · dsimp only
          split
          · exact h
          · exact foldl_addMemberStep_uniqueMem _ _ _ _ h
  · intro db roomIdString adminId w now room adm target hroom hadmin husers hfind
    simp only [addGroupMembers, List.isEmpty_cons, hroom, hadmin, husers]
    rw [if_neg (by simp)]
    simp [List.foldl, addMemberStep, hfind]
  · intro db roomIdString adminId w now room adm target ex hroom hadmin husers hfind hleft
    rcases updateFirst_decomp db.members ex hfind with ⟨l₁, l₂, hsplit, _, hupd⟩
    refine ⟨l₁, l₂, hsplit, ?_⟩
    simp only [addGroupMembers, List.isEmpty_cons, hroom, hadmin, husers]
    rw [if_neg (by simp)]
    have hbne : (ex.leftAt != none) = true := by
      simpa [bne_iff_ne] using hleft
    simp [List.foldl, addMemberStep, hfind, hbne,
      hupd (fun mb => { mb with leftAt := none, joinedAt := now })]
  · intro db roomIdString adminId w now room adm target ex hroom hadmin husers hfind hleft
    simp only [addGroupMembers, List.isEmpty_cons, hroom, hadmin, husers]
    rw [if_neg (by simp)]
    simp [List.foldl, addMemberStep, hfind, hleft]

/-- A group room fixture. -/
def groupRoom : Room :=
  { rid := 20, roomId := str "room:group_1", rtype := RoomType.group,
    name := some (str "T"), lastMessage := [], lastMessageAt := 0, createdBy := some 1 }

/-- The group creator's admin membership. -/
def adminMb : Membership :=
  { roomRef := 20, userId := 1, role := Role.admin, unreadCount := 0,
    lastReadAt := 0, joinedAt := 0, leftAt := none }

/-- The user the C9 witness adds. -/
def carolUser : User := { uid := 3, username := str "carol" }

/-- A one-admin group store. -/
def dbGroup : DB :=
  { users := [carolUser], rooms := [groupRoom], members := [adminMb], msgs := [] }

/-- Witness for C9: adding "carol" to the group creates exactly one new
member-role membership and reports (created, reactivated) = (1, 0). -/
theorem C9_addGroupMembers_membership_unique_witness :
    addGroupMembers dbGroup (str "room:group_1") 1 [str "carol"] 5 =
      ({ dbGroup with members := dbGroup.members ++
          [{ roomRef := 20, userId := 3, role := Role.member,
             unreadCount := 0, lastReadAt := 5, joinedAt := 5, leftAt := none }] },
       ApiResult.success 200 (1, 0)) :=
  C9_addGroupMembers_membership_unique.2.1 dbGroup (str "room:group_1") 1 (str "carol") 5
    groupRoom adminMb carolUser rfl rfl rfl rfl

/-! Admin succession on leave (C6). -/

/-- The at-least-one-active-admin invariant for one room: whenever the
room still has an active member it has an active admin. -/
def adminInvariant (db : DB) (rid : Nat) : Prop :=
  activeMembersOf db rid ≠ [] → activeAdminsOf db rid ≠ []

/-- Replacing a middle element invisible to a filter leaves the filter
unchanged. -/
theorem filter_mid_false (q : Membership → Bool) (l₁ l₂ : List Membership)
    (x y : Membership) (hx : q x = false) (hy : q y = false) :
    (l₁ ++ x :: l₂).filter q = (l₁ ++ y :: l₂).filter q := by
  simp only [List.filter_append, List.filter_cons]
  rw [if_neg (by simp [hx]), if_neg (by simp [hy])]

/-- A filter nonempty with an invisible middle element stays nonempty
after replacing that element. -/
theorem filter_mid_ne_nil (q : Membership → Bool) (l₁ l₂ : List Membership)
    (x y : Membership) (hy : q y = false)
    (h : (l₁ ++ y :: l₂).filter q ≠ []) : (l₁ ++ x :: l₂).filter q ≠ [] := by
  rw [List.filter_append, List.filter_cons, if_neg (by simp [hy])] at h
  rw [List.filter_append, List.filter_cons]
  by_cases hx : q x = true
  · rw [if_pos hx]
    simp
  · rw [if_neg hx]
    exact h

/-- Single-step preservation: one leaveGroup call keeps the
admin invariant of every room. -/
theorem leaveGroup_preserves_adminInvariant
    (db : DB) (roomIdString : Str) (userId now : Nat) (rid : Nat)
    (h : adminInvariant db rid) :
    adminInvariant (leaveGroup db roomIdString userId now).1 rid := by
  unfold leaveGroup
  cases hroom : db.rooms.find?
      (fun r => r.roomId == roomIdString && r.rtype == RoomType.group) with
  | none => exact h
  | some room =>
    dsimp only
    cases hmem : db.members.find?
        (fun mb => mb.roomRef == room.rid && mb.userId == userId && mb.leftAt == none) with
    | none => exact h
    | some membership =>
      dsimp only
      rcases updateFirst_decomp db.members membership hmem with ⟨l₁, l₂, hsplit, _, hupd⟩
      have hupdated := hupd (fun mb => { mb with leftAt := some now })
      have hprop := List.find?_some hmem
      rw [Bool.and_eq_true, Bool.and_eq_true] at hprop
      obtain ⟨⟨hbr, hbu⟩, hbl⟩ := hprop
      have hrr : membership.roomRef = room.rid := eq_of_beq hbr
      have hMemFalse : ∀ r : Nat,
          (({ membership with leftAt := some now } : Membership).roomRef == r &&
            ({ membership with leftAt := some now } : Membership).leftAt == none) = false := by
        intro r; simp
      have hAdmFalse : ∀ r : Nat,
          (({ membership with leftAt := some now } : Membership).roomRef == r &&
            ({ membership with leftAt := some now } : Membership).role == Role.admin &&
            ({ membership with leftAt := some now } : Membership).leftAt == none) = false := by
        intro r; simp
      rw [hupdated]
      -- transfer of the active-member hypothesis through the departed copy
      have htrMem : ∀ r : Nat,
          (l₁ ++ ({ membership with leftAt := some now } : Membership) :: l₂).filter
            (fun mb => mb.roomRef == r && mb.leftAt == none) ≠ [] →
          activeMembersOf db r ≠ [] := by
        intro r hne
        simp only [activeMembersOf, hsplit]
        exact filter_mid_ne_nil _ l₁ l₂ membership _ (hMemFalse r) hne
      -- for rooms other than room.rid (or a non-admin leaver) the admin
      -- filter is untouched by the departure
      have htrAdm : ∀ r : Nat,
          (membership.roomRef == r && membership.role == Role.admin &&
            membership.leftAt == none) = false →
          activeAdminsOf db r ≠ [] →
          (l₁ ++ ({ membership with leftAt := some now } : Membership) :: l₂).filter
            (fun mb => mb.roomRef == r && mb.role == Role.admin && mb.leftAt == none) ≠ [] := by
        intro r hfalse hadm
        simp only [activeAdminsOf, hsplit] at hadm
        rw [filter_mid_false _ l₁ l₂ _ membership (hAdmFalse r) hfalse]
        exact hadm
      split
      · -- the departing member was an admin
        split
        · -- no active admin remains: promotion path
          rename_i hzero
          cases hfom : findOldestMember (activeMembersOf
              { db with members := l₁ ++ ({ membership with leftAt := some now } : Membership) :: l₂ } room.rid) with
          | none =>
            dsimp only
            have hempty := (findOldestMember_eq_none _).mp hfom
            intro hne
            by_cases hr : rid = room.rid
            · subst hr
              exact absurd hempty hne
            · have hadmmb : (membership.roomRef == rid && membership.role == Role.admin && membership.leftAt == none) = false := by
                simp [hrr]
                intro hcontra
                exact absurd hcontra.symm hr
              have hadm := h (htrMem rid (by simpa [activeMembersOf] using hne))
              simpa [activeAdminsOf] using htrAdm rid hadmmb hadm
          | some oldest =>
            dsimp only
            have holdmem := findOldestMember_mem _ _ hfom
            simp only [activeMembersOf] at holdmem
            have holdfacts := List.mem_filter.mp holdmem
            have holdin := holdfacts.1
            have holdq := holdfacts.2
            rw [Bool.and_eq_true] at holdq
            have holdrr : oldest.roomRef = room.rid := eq_of_beq holdq.1
            have holdleft : oldest.leftAt = none := by simpa using holdq.2
            have hfindold := find?_beq_self _ oldest holdin
            rcases updateFirst_decomp _ oldest hfindold with ⟨k₁, k₂, hksplit, _, hkupd⟩
            have hkupdated := hkupd (fun mb => { mb with role := Role.admin })
            rw [hkupdated]
            intro hne
            by_cases hr : rid = room.rid
            · subst hr
              simp only [activeAdminsOf]
              simp [List.filter_append, List.filter_cons, holdrr, holdleft]
            · have hadmold : (oldest.roomRef == rid && oldest.role == Role.admin && oldest.leftAt == none) = false := by
                simp [holdrr]
                intro hcontra
                exact absurd hcontra.symm hr
              have hadmoldA : (({ oldest with role := Role.admin } : Membership).roomRef == rid &&
                  ({ oldest with role := Role.admin } : Membership).role == Role.admin &&
                  ({ oldest with role := Role.admin } : Membership).leftAt == none) = false := by
                simp [holdrr]
                intro hcontra
                exact absurd hcontra.symm hr
              have hmemoldA : (({ oldest with role := Role.admin } : Membership).roomRef == rid &&
                  ({ oldest with role := Role.admin } : Membership).leftAt == none) = false := by
                simp [holdrr]
                intro hcontra
                exact absurd hcontra.symm hr
              have hadmmb : (membership.roomRef == rid && membership.role == Role.admin && membership.leftAt == none) = false := by
                simp [hrr]
                intro hcontra
                exact absurd hcontra.symm hr
              -- peel the promotion update off the active-member hypothesis
              have hne1 : (l₁ ++ ({ membership with leftAt := some now } : Membership) :: l₂).filter
                  (fun mb => mb.roomRef == rid && mb.leftAt == none) ≠ [] := by
                rw [hksplit]
                exact filter_mid_ne_nil _ k₁ k₂ oldest _ hmemoldA (by simpa [activeMembersOf] using hne)
              have hadm := h (htrMem rid hne1)
              have hstep1 := htrAdm rid hadmmb hadm
              simp only [activeAdminsOf]
              rw [filter_mid_false _ k₁ k₂ _ oldest hadmoldA hadmold, ← hksplit]
              exact hstep1
        · -- another active admin remains
          rename_i hzero
          dsimp only
          intro hne
          by_cases hr : rid = room.rid
          · subst hr
            intro hcontra
            rw [hcontra] at hzero
            simp at hzero
          · have hadmmb : (membership.roomRef == rid && membership.role == Role.admin && membership.leftAt == none) = false := by
              simp [hrr]
              intro hcontra
              exact absurd hcontra.symm hr
            have hadm := h (htrMem rid (by simpa [activeMembersOf] using hne))
            simpa [activeAdminsOf] using htrAdm rid hadmmb hadm
      · -- the departing member was not an admin
        rename_i hrole
        dsimp only
        intro hne
        have hadmmb : (membership.roomRef == rid && membership.role == Role.admin && membership.leftAt == none) = false := by
          rw [Bool.not_eq_true] at hrole
          simp [hrole]
        have hadm := h (htrMem rid (by simpa [activeMembersOf] using hne))
        simpa [activeAdminsOf] using htrAdm rid hadmmb hadm

/-- Any sequence of leave operations keeps the admin invariant. -/
theorem leaveSeq_preserves_adminInvariant :
    ∀ (ops : List (Str × Nat × Nat)) (db : DB) (rid : Nat),
      adminInvariant db rid → adminInvariant (leaveSeq db ops) rid := by
  intro ops
  induction ops with
  | nil => intro db rid h; exact h
  | cons op rest ih =>
    intro db rid h
    exact ih _ _ (leaveGroup_preserves_adminInvariant db op.1 op.2.1 op.2.2 rid h)

/-- Second member of the scenario group (earliest-joined non-admin). -/
def mbB : Membership :=
  { roomRef := 20, userId := 2, role := Role.member, unreadCount := 0,
    lastReadAt := 0, joinedAt := 1, leftAt := none }

/-- Third member of the scenario group. -/
def mbC : Membership :=
  { roomRef := 20, userId := 3, role := Role.member, unreadCount := 0,
    lastReadAt := 0, joinedAt := 2, leftAt := none }

/-- A three-member group whose only admin (user 1) is about to leave. -/
def dbTrio : DB :=
  { users := [], rooms := [groupRoom], members := [adminMb, mbB, mbC], msgs := [] }

/-- The scenario group after the admin leaves: the earliest-joined
remaining member (user 2) has been promoted. -/
def dbTrioAfter : DB :=
  { users := [], rooms := [groupRoom],
    members := [{ adminMb with leftAt := some 99 }, { mbB with role := Role.admin }, mbC],
    msgs := [] }

/-- C6: one leaveGroup call preserves the at-least-one-active-admin
invariant of every room (so any sequence of leaves does too, and a room
whose last member leaves is simply left without an admin, the invariant
being vacuous); the promotion candidate findOldestMember picks an active
member with the earliest joinedAt; and in the concrete sole-admin
scenario the departing admin's place is taken by exactly the
earliest-joined remaining member. -/
theorem C6_leaveGroup_admin_succession :
    (∀ (db : DB) (roomIdString : Str) (userId now rid : Nat),
       adminInvariant db rid → adminInvariant (leaveGroup db roomIdString userId now).1 rid) ∧
    (∀ (ops : List (Str × Nat × Nat)) (db : DB) (rid : Nat),
       adminInvariant db rid → adminInvariant (leaveSeq db ops) rid) ∧
    (∀ (l : List Membership) (b : Membership),
       findOldestMember l = some b → b ∈ l ∧ ∀ mb ∈ l, b.joinedAt ≤ mb.joinedAt) ∧
    ((leaveGroup dbTrio (str "room:group_1") 1 99).1 = dbTrioAfter ∧
      activeAdminsOf dbTrioAfter 20 = [{ mbB with role := Role.admin }] ∧
      ∀ mb ∈ activeMembersOf dbTrioAfter 20,
        ({ mbB with role := Role.admin } : Membership).joinedAt ≤ mb.joinedAt) := by
  refine ⟨?_, leaveSeq_preserves_adminInvariant, ?_, ?_, rfl, ?_⟩
  · intro db roomIdString userId now rid h
    exact leaveGroup_preserves_adminInvariant db roomIdString userId now rid h
  · intro l b hb
    exact ⟨findOldestMember_mem l b hb, findOldestMember_min l b hb⟩
  · rfl
  · decide

/-- Witness for C6: the concrete three-member group satisfies the admin
invariant, and it still does after its sole admin leaves. -/
theorem C6_leaveGroup_admin_succession_witness :
    adminInvariant dbTrio 20 ∧
    adminInvariant (leaveGroup dbTrio (str "room:group_1") 1 99).1 20 :=
  ⟨by unfold adminInvariant; decide,
   C6_leaveGroup_admin_succession.1 dbTrio (str "room:group_1") 1 99 20
     (by unfold adminInvariant; decide)⟩

/-! Sorting lemmas for pagination (C7). -/

/-- Members of an insertion are the inserted element or old members. -/
theorem mem_insertByCreatedDesc {m b : Msg} :
    ∀ {l : List Msg}, b ∈ insertByCreatedDesc m l → b = m ∨ b ∈ l := by
  intro l
  induction l with
  | nil =>
    intro hb
    rcases List.mem_singleton.mp hb with rfl
    exact Or.inl rfl
  | cons x xs ih =>
    intro hb
    unfold insertByCreatedDesc at hb
    by_cases hle : m.createdAt ≤ x.createdAt
    · rw [if_pos hle] at hb
      cases hb with
      | head => exact Or.inr (List.mem_cons_self _ _)
      | tail _ h =>
        rcases ih h with h1 | h1
        · exact Or.inl h1
        · exact Or.inr (List.mem_cons_of_mem x h1)
    · rw [if_neg hle] at hb
      cases hb with
      | head => exact Or.inl rfl
      | tail _ h => exact Or.inr h

/-- Insertion is a permutation of consing. -/
theorem perm_insertByCreatedDesc (m : Msg) :
    ∀ (l : List Msg), (insertByCreatedDesc m l).Perm (m :: l) := by
  intro l
  induction l with
  | nil => exact List.Perm.refl _
  | cons x xs ih =>
    unfold insertByCreatedDesc
    by_cases hle : m.createdAt ≤ x.createdAt
    · rw [if_pos hle]
      exact (ih.cons x).trans (List.Perm.swap m x xs)
    · rw [if_neg hle]

/-- The sort is a permutation of its input. -/
theorem perm_sortByCreatedDesc : ∀ (l : List Msg), (sortByCreatedDesc l).Perm l := by
  intro l
  induction l with
  | nil => exact List.Perm.refl _
  | cons x xs ih =>
    exact (perm_insertByCreatedDesc x (sortByCreatedDesc xs)).trans (ih.cons x)

/-- Insertion into a newest-first list keeps it newest-first. -/
theorem sorted_insertByCreatedDesc (m : Msg) :
    ∀ (l : List Msg), l.Pairwise (fun a b => b.createdAt ≤ a.createdAt) →
      (insertByCreatedDesc m l).Pairwise (fun a b => b.createdAt ≤ a.createdAt) := by
  intro l
  induction l with
  | nil => intro _; exact List.pairwise_singleton _ _
  | cons x xs ih =>
    intro h
    rcases List.pairwise_cons.mp h with ⟨hx, hxs⟩
    unfold insertByCreatedDesc
    by_cases hle : m.createdAt ≤ x.createdAt
    · rw [if_pos hle]
      apply List.pairwise_cons.mpr
      refine ⟨?_, ih hxs⟩
      intro b hb
      rcases mem_insertByCreatedDesc hb with rfl | h1
      · exact hle
      · exact hx b h1
    · rw [if_neg hle]
      have hlt : x.createdAt < m.createdAt := Nat.lt_of_not_le hle
      apply List.pairwise_cons.mpr
      refine ⟨?_, h⟩
      intro b hb
      cases hb with
      | head => exact Nat.le_of_lt hlt
      | tail _ h1 => exact Nat.le_trans (hx b h1) (Nat.le_of_lt hlt)

/-- The sort output is newest-first. -/
theorem sorted_sortByCreatedDesc :
    ∀ (l : List Msg), (sortByCreatedDesc l).Pairwise (fun a b => b.createdAt ≤ a.createdAt) := by
  intro l
  induction l with
  | nil => exact List.Pairwise.nil
  | cons x xs ih => exact sorted_insertByCreatedDesc x _ ih

/-- In a newest-first list the last element is oldest. -/
theorem getLast?_oldest :
    ∀ (l : List Msg), l.Pairwise (fun a b => b.createdAt ≤ a.createdAt) →
      ∀ z, l.getLast? = some z → ∀ m ∈ l, z.createdAt ≤ m.createdAt := by
  intro l
  induction l with
  | nil => intro _ z hz; cases hz
  | cons x xs ih =>
    intro h z hz m hm
    rcases List.pairwise_cons.mp h with ⟨hx, hxs⟩
    cases xs with
    | nil =>
      have hzx : x = z := by
        simpa using hz
      rcases List.mem_singleton.mp hm with rfl
      rw [← hzx]
    | cons y ys =>
      rw [List.getLast?_cons_cons] at hz
      have hzin : z ∈ y :: ys := List.mem_of_mem_getLast? (Option.mem_def.mpr hz)
      cases hm with
      | head => exact hx z hzin
      | tail _ h1 => exact ih hxs z hz m h1

/-- The ok-branch contract of Message.getPaginatedMessages. -/
theorem getPaginatedMessages_ok_spec
    (db : DB) (roomIdString : Str) (limitOpt before : Option Nat) (p : PaginationResult)
    (h : Message.getPaginatedMessages db roomIdString limitOpt before = Except.ok p) :
    p.count = p.messages.length ∧
    p.messages.length ≤ min (limitOpt.getD 30) 75 ∧
    (∀ m ∈ p.messages, m.roomId = roomIdString ∧ ∀ b, before = some b → m.createdAt < b) ∧
    p.messages.Pairwise (fun a b => b.createdAt ≤ a.createdAt) ∧
    (p.hasMore = true ↔
      min (limitOpt.getD 30) 75 < (db.msgs.filter (pageFilter roomIdString before)).length) ∧
    (p.hasMore = false →
      p.messages.length = (db.msgs.filter (pageFilter roomIdString before)).length) ∧
    (p.messages = [] → p.oldestMessageTime = none) ∧
    (∀ last, p.messages.getLast? = some last →
       p.oldestMessageTime = some last.createdAt ∧
       ∀ m ∈ p.messages, last.createdAt ≤ m.createdAt) := by
  unfold Message.getPaginatedMessages at h
  cases hroom : db.rooms.find? (fun r => r.roomId == roomIdString) with
  | none =>
    rw [hroom] at h
    exact Except.noConfusion h
  | some room =>
    rw [hroom] at h
    dsimp only at h
    rw [Except.ok.injEq] at h
    subst h
    set L := min (limitOpt.getD 30) 75 with hL
    set S := sortByCreatedDesc (db.msgs.filter (pageFilter roomIdString before)) with hS
    have hsorted : S.Pairwise (fun a b => b.createdAt ≤ a.createdAt) :=
      sorted_sortByCreatedDesc _
    have hperm : S.Perm (db.msgs.filter (pageFilter roomIdString before)) :=
      perm_sortByCreatedDesc _
    have hlenS : S.length = (db.msgs.filter (pageFilter roomIdString before)).length :=
      hperm.length_eq
    have hlenF : (S.take (L + 1)).length = min (L + 1) S.length := List.length_take _ _
    have hsubF : List.Sublist (S.take (L + 1)) S := List.take_sublist _ _
    by_cases hM : L < (S.take (L + 1)).length
    · have hdec : decide (L < (S.take (L + 1)).length) = true := decide_eq_true hM
      have hA : (if decide (L < (S.take (L + 1)).length) = true
          then (S.take (L + 1)).take L else S.take (L + 1)) = (S.take (L + 1)).take L := by
        rw [hdec]
        simp
      dsimp only
      rw [hA]
      have hsubA : List.Sublist ((S.take (L + 1)).take L) S :=
        (List.take_sublist _ _).trans hsubF
      have hsortedA : ((S.take (L + 1)).take L).Pairwise (fun a b => b.createdAt ≤ a.createdAt) :=
        hsorted.sublist hsubA
      have hmemA : ∀ m ∈ (S.take (L + 1)).take L, pageFilter roomIdString before m = true := by
        intro m hm
        have : m ∈ db.msgs.filter (pageFilter roomIdString before) :=
          hperm.mem_iff.mp (hsubA.subset hm)
        exact (List.mem_filter.mp this).2
      refine ⟨rfl, ?_, ?_, hsortedA, ?_, ?_, ?_, ?_⟩
      · rw [List.length_take]
        exact Nat.min_le_left _ _
      · intro m hm
        have hf := hmemA m hm
        unfold pageFilter at hf
        rw [Bool.and_eq_true] at hf
        refine ⟨eq_of_beq hf.1, ?_⟩
        intro b hb
        rw [hb] at hf
        exact of_decide_eq_true hf.2
      · constructor
        · intro _
          rw [hlenF, hlenS] at hM
          omega
        · intro _
          exact hdec
      · intro hfalse
        rw [hdec] at hfalse
        exact Bool.noConfusion hfalse
      · intro hempty
        rw [hempty]
        rfl
      · intro last hlast
        constructor
        · simp [hlast]
        · exact getLast?_oldest _ hsortedA last hlast
    · have hdec : decide (L < (S.take (L + 1)).length) = false :=
        decide_eq_false hM
      have hA : (if decide (L < (S.take (L + 1)).length) = true
          then (S.take (L + 1)).take L else S.take (L + 1)) = S.take (L + 1) := by
        rw [hdec]
        simp
      dsimp only
      rw [hA]
      have hfull : S.take (L + 1) = S := by
        apply List.take_of_length_le
        rw [hlenF] at hM
        omega
      have hsortedA : (S.take (L + 1)).Pairwise (fun a b => b.createdAt ≤ a.createdAt) :=
        hsorted.sublist hsubF
      refine ⟨rfl, ?_, ?_, hsortedA, ?_, ?_, ?_, ?_⟩
      · rw [hlenF]
        omega
      · intro m hm
        have : m ∈ db.msgs.filter (pageFilter roomIdString before) :=
          hperm.mem_iff.mp (hsubF.subset hm)
        have hf := (List.mem_filter.mp this).2
        unfold pageFilter at hf
        rw [Bool.and_eq_true] at hf
        refine ⟨eq_of_beq hf.1, ?_⟩
        intro b hb
        rw [hb] at hf
        exact of_decide_eq_true hf.2
      · constructor
        · intro hc
          rw [hdec] at hc
          exact Bool.noConfusion hc
        · intro hc
          rw [hfull, hlenS] at hM
          omega
      · intro _
        rw [hfull, hlenS]
      · intro hempty
        rw [hempty]
        rfl
      · intro last hlast
        constructor
        · simp [hlast]
        · exact getLast?_oldest _ hsortedA last hlast

/-- Pagination fails NotFound exactly when the room is absent. -/
theorem getPaginatedMessages_notFound
    (db : DB) (roomIdString : Str) (limitOpt before : Option Nat) :
    db.rooms.find? (fun r => r.roomId == roomIdString) = none ↔
      Message.getPaginatedMessages db roomIdString limitOpt before =
        Except.error "Room not found" := by
  constructor
  · intro h
    unfold Message.getPaginatedMessages
    rw [h]
  · intro h
    cases hfind : db.rooms.find? (fun r => r.roomId == roomIdString) with
    | none => rfl
    | some room =>
      unfold Message.getPaginatedMessages at h
      rw [hfind] at h
      dsimp only at h
      exact Except.noConfusion h

/-- One of the 31 scenario messages: ids and createdAt both equal i. -/
def mkMsg31 (i : Nat) : Msg :=
  { mid := i, senderId := 1, roomId := str "g", text := str "x",
    status := Status.Sent, createdAt := i, deliveredAt := none, readAt := none }

/-- The scenario room. -/
def room31 : Room :=
  { rid := 31, roomId := str "g", rtype := RoomType.dm, name := none,
    lastMessage := [], lastMessageAt := 0, createdBy := none }

/-- A store holding 31 messages with distinct timestamps 0..30. -/
def db31 : DB :=
  { users := [], rooms := [room31], members := [],
    msgs := (List.range 31).map mkMsg31 }

/-- The first page of the scenario: the 30 newest messages, newest first,
with hasMore and the cursor pointing at createdAt 1. -/
def page31 : PaginationResult :=
  { messages := (List.range 30).map (fun i => mkMsg31 (30 - i)),
    hasMore := true, oldestMessageTime := some 1, count := 30 }

/-- C7: pagination defaults the limit to 30 and caps it at 75; it fails
NotFound exactly when the room is absent; on success it returns at most
the capped limit of messages, all from the room and strictly older than
the cursor, newest-first, with hasMore true exactly when more matching
messages exist than the cap (determined by fetching one extra row), count
equal to the returned length, and oldestMessageTime the createdAt of the
oldest (last) returned message, or none when no message is returned; and
in the 31-message scenario the first page returns exactly 30 messages
with hasMore true and cursor 1, while the follow-up page with before = 1
returns the single remaining message with hasMore false. -/
theorem C7_getPaginatedMessages_contract :
    (∀ (db : DB) (roomIdString : Str) (before : Option Nat),
       Message.getPaginatedMessages db roomIdString none before =
         Message.getPaginatedMessages db roomIdString (some 30) before) ∧
    (∀ (db : DB) (roomIdString : Str) (limitOpt before : Option Nat),
       db.rooms.find? (fun r => r.roomId == roomIdString) = none ↔
         Message.getPaginatedMessages db roomIdString limitOpt before =
           Except.error "Room not found") ∧
    (∀ (db : DB) (roomIdString : Str) (limitOpt before : Option Nat) (p : PaginationResult),
       Message.getPaginatedMessages db roomIdString limitOpt before = Except.ok p →
       p.count = p.messages.length ∧
       p.messages.length ≤ min (limitOpt.getD 30) 75 ∧
       (∀ m ∈ p.messages, m.roomId = roomIdString ∧ ∀ b, before = some b → m.createdAt < b) ∧
       p.messages.Pairwise (fun a b => b.createdAt ≤ a.createdAt) ∧
       (p.hasMore = true ↔
         min (limitOpt.getD 30) 75 < (db.msgs.filter (pageFilter roomIdString before)).length) ∧
       (p.hasMore = false →
         p.messages.length = (db.msgs.filter (pageFilter roomIdString before)).length) ∧
       (p.messages = [] → p.oldestMessageTime = none) ∧
       (∀ last, p.messages.getLast? = some last →
          p.oldestMessageTime = some last.createdAt ∧
          ∀ m ∈ p.messages, last.createdAt ≤ m.createdAt)) ∧
    (Message.getPaginatedMessages db31 (str "g") (some 30) none = Except.ok page31 ∧
     Message.getPaginatedMessages db31 (str "g") (some 30) (some 1) =
       Except.ok { messages := [mkMsg31 0], hasMore := false,
                   oldestMessageTime := some 0, count := 1 }) :=
  ⟨fun _ _ _ => rfl, getPaginatedMessages_notFound,
   getPaginatedMessages_ok_spec, rfl, rfl⟩

/-- Witness for C7: the ok-branch contract applied to the concrete
31-message store — the hasMore flag of the first page is true exactly
because 31 matching messages exceed the limit of 30. -/
theorem C7_getPaginatedMessages_contract_witness :
    Message.getPaginatedMessages db31 (str "g") (some 30) none = Except.ok page31 ∧
    (page31.hasMore = true ↔
      min ((some 30 : Option Nat).getD 30) 75 <
        (db31.msgs.filter (pageFilter (str "g") none)).length) :=
  ⟨rfl,
   (C7_getPaginatedMessages_contract.2.2.1 db31 (str "g") (some 30) none page31
     rfl).2.2.2.2.1⟩

end Synq
